import Mathlib

/-!
Verification of the `birdy` screenshot/annotation tool.

The development shallowly embeds the session state machine, the compositing
pipeline and the exporter from `src/main.rs`.  Pixel buffers (`Vec<u8>`) are
modelled as `List ℕ`; `usize` values are modelled as `ℕ`.  Wrap-around
(release-mode) `usize` arithmetic is made explicit through `subW`/`addW`/`mulW`
(reduction modulo 2^64) at the places where the source can underflow or
overflow, namely in `get_clipped_image`; the remaining index arithmetic only
ever combines coordinates that are far below 2^64, where wrapping and plain
arithmetic agree.  Mouse positions are modelled as integer pixel coordinates
(the `f64`-to-`usize` cast of the source is applied at event delivery).
Fallible operations (indexing that can panic out of bounds) return `Option`.
-/

namespace Birdy

/-- Width of the `usize` machine-integer type (64-bit platform). -/
def usizeW : ℕ := 2 ^ 64

/-- Wrapping (release-mode) `usize` subtraction. -/
def subW (a b : ℕ) : ℕ := (a + (usizeW - b % usizeW)) % usizeW

/-- Wrapping (release-mode) `usize` addition. -/
def addW (a b : ℕ) : ℕ := (a + b) % usizeW

/-- Wrapping (release-mode) `usize` multiplication. -/
def mulW (a b : ℕ) : ℕ := (a * b) % usizeW

/-- An integer pixel coordinate pair, `(usize, usize)` in the source. -/
structure Pt where
  x : ℕ
  y : ℕ
deriving DecidableEq, Repr

/-- An RGBA colour, `(u8, u8, u8, u8)` in the source. -/
structure Rgba where
  r : ℕ
  g : ℕ
  b : ℕ
  a : ℕ
deriving DecidableEq, Repr

/-- `BORDER_COLOR`: opaque magenta. -/
def BORDER_COLOR : Rgba := ⟨255, 0, 255, 255⟩

/-- The `DrawMode` selected by the `l`/`r`/`p` keys (`Option<DrawMode>` holds
`None`). -/
inductive DrawMode where
  | line
  | rectBorder
  | rectFilled
deriving DecidableEq, Repr

/-- A finalized or in-progress annotation (`DrawnItem` in the source). -/
inductive DrawnItem where
  | line (p0 p1 : Pt)
  | rectBorder (p0 p1 : Pt)
  | rectFilled (p0 p1 : Pt)
deriving DecidableEq, Repr

/-- The `Image` record handed to the clipboard collaborator. -/
structure Image where
  width : ℕ
  height : ℕ
  bytes : List ℕ
deriving DecidableEq, Repr

/-- One of the four grabbable region borders. -/
inductive Edge where
  | top
  | right
  | bottom
  | left
deriving DecidableEq, Repr

/-- The session state (`struct Screenshot` in the source). -/
structure Screenshot where
  original_screenshot : List ℕ
  modified_screenshot : List ℕ
  p0 : Pt
  p1 : Pt
  width : ℕ
  height : ℕ
  is_resizing : Bool
  top_border_resized : Bool
  right_border_resized : Bool
  bottom_border_resized : Bool
  left_border_resized : Bool
  draw_mode : Option DrawMode
  drawing_item : Option DrawnItem
  drawn_items : List DrawnItem
  mouse_coordinates : Option Pt
deriving DecidableEq, Repr

/-! ## Rasterizer

The `line` and `rectangle` modules of the repository are not part of the
provided sources; they are modelled from the spec (§4.3). -/

/-- Modelled from the spec: a clipped single-pixel write.  "All functions must
validate that computed pixel offsets stay within buffer bounds; out-of-range
coordinates are clipped rather than causing an out-of-bounds write."  The pixel
`(x, y)` (signed, as produced by line interpolation) has its four channels
overwritten when `0 ≤ x < w`, `0 ≤ y` and the last channel offset is inside the
buffer. -/
def set_pixel (buf : List ℕ) (w : ℕ) (x y : ℤ) (c : Rgba) : List ℕ :=
  if 0 ≤ x ∧ x < (w : ℤ) ∧ 0 ≤ y ∧ 4 * (y.toNat * w + x.toNat) + 3 < buf.length then
    let base := 4 * (y.toNat * w + x.toNat)
    ((((buf.set base c.r).set (base + 1) c.g).set (base + 2) c.b).set (base + 3) c.a)
  else
    buf

/-- Modelled from the spec: linear interpolation for the missing `line` module,
"one pixel per integer step along the dominant axis (Bresenham-style)".  Step
`i` of `n` from `a` towards `b`; on the dominant axis (`n = |b − a|`) this is an
exact integer step. -/
def interp (a b : ℕ) (i n : ℕ) : ℤ :=
  if n = 0 then (a : ℤ) else (a : ℤ) + ((b : ℤ) - (a : ℤ)) * (i : ℤ) / (n : ℤ)

/-- The number of steps along the dominant axis of a line segment. -/
def line_steps (x0 y0 x1 y1 : ℕ) : ℕ :=
  max ((x1 : ℤ) - (x0 : ℤ)).natAbs ((y1 : ℤ) - (y0 : ℤ)).natAbs

/-- Modelled from the spec: `draw_line` of the missing `line` module.  "Writes
one pixel per integer step along the dominant axis (Bresenham-style), covering
both axis-aligned and diagonal segments; overwrites (does not blend) the
destination pixel's 4 channels." -/
def draw_line (buf : List ℕ) (x0 y0 x1 y1 : ℕ) (w : ℕ) (c : Rgba) : List ℕ :=
  (List.range (line_steps x0 y0 x1 y1 + 1)).foldl
    (fun b i => set_pixel b w (interp x0 x1 i (line_steps x0 y0 x1 y1))
      (interp y0 y1 i (line_steps x0 y0 x1 y1)) c) buf

/-- Modelled from the spec: `draw_rect_borders` of the missing `rectangle`
module, "draws the four edges as lines connecting the corners of the `(p0,p1)`
box". -/
def draw_rect_borders (buf : List ℕ) (x0 y0 x1 y1 : ℕ) (w : ℕ) (c : Rgba) : List ℕ :=
  draw_line (draw_line (draw_line (draw_line buf x0 y0 x1 y0 w c) x1 y0 x1 y1 w c)
    x1 y1 x0 y1 w c) x0 y1 x0 y0 w c

/-- Modelled from the spec: `draw_rect_filled` of the missing `rectangle`
module, "overwrites every pixel's 4 channels within the inclusive box `[p0,p1]`
with `color`". -/
def draw_rect_filled (buf : List ℕ) (x0 y0 x1 y1 : ℕ) (w : ℕ) (c : Rgba) : List ℕ :=
  (List.range (max y0 y1 + 1 - min y0 y1)).foldl
    (fun b dy =>
      (List.range (max x0 x1 + 1 - min x0 x1)).foldl
        (fun b dx => set_pixel b w ((min x0 x1 + dx : ℕ) : ℤ) ((min y0 y1 + dy : ℕ) : ℤ) c) b)
    buf

/-! ## Session state operations (`impl Screenshot`) -/

/-- `Screenshot::new` with the captured screen buffer supplied by the capture
collaborator. -/
def Screenshot.mk_initial (width height : ℕ) (captured : List ℕ) : Screenshot where
  original_screenshot := captured
  modified_screenshot := captured
  p0 := ⟨0, 0⟩
  p1 := ⟨width, height⟩
  width := width
  height := height
  is_resizing := false
  top_border_resized := false
  right_border_resized := false
  bottom_border_resized := false
  left_border_resized := false
  draw_mode := none
  drawing_item := none
  drawn_items := []
  mouse_coordinates := none

/-- `Screenshot::get_focused_image`. -/
def Screenshot.get_focused_image (s : Screenshot) : Image where
  width := s.width
  height := s.height
  bytes := s.modified_screenshot

/-- The inner column loop of `Screenshot::get_clipped_image`: reads the four
channels of pixel `(x, y)` and recurses on `x + 1`; iteration count is given by
structural fuel (the source iterates a `Range`, i.e. `bound − start` steps).  A
panicking out-of-bounds read is modelled as `none`. -/
def clip_cols (buf : List ℕ) (w y : ℕ) : ℕ → ℕ → Option (List ℕ)
  | _, 0 => some []
  | x, fuel + 1 => do
    let b0 ← buf[addW (mulW y (mulW w 4)) (mulW x 4)]?
    let b1 ← buf[addW (addW (mulW y (mulW w 4)) (mulW x 4)) 1]?
    let b2 ← buf[addW (addW (mulW y (mulW w 4)) (mulW x 4)) 2]?
    let b3 ← buf[addW (addW (mulW y (mulW w 4)) (mulW x 4)) 3]?
    let rest ← clip_cols buf w y (x + 1) fuel
    some (b0 :: b1 :: b2 :: b3 :: rest)

/-- The outer row loop of `Screenshot::get_clipped_image`. -/
def clip_rows (buf : List ℕ) (w xs xf : ℕ) : ℕ → ℕ → Option (List ℕ)
  | _, 0 => some []
  | y, fuel + 1 => do
    let row ← clip_cols buf w y xs xf
    let rest ← clip_rows buf w xs xf (y + 1) fuel
    some (row ++ rest)

/-- `Screenshot::get_clipped_image`.  The source's `usize` subtractions wrap in
release mode (`subW`); an out-of-bounds indexing panic is modelled as `none`. -/
def Screenshot.get_clipped_image (s : Screenshot) : Option Image :=
  let xs := s.p0.x + 1
  let xe := subW s.p1.x 1
  let ys := s.p0.y + 1
  let ye := subW s.p1.y 1
  match clip_rows s.modified_screenshot s.width xs (xe - xs) ys (ye - ys) with
  | none => none
  | some bytes =>
    some ⟨subW (subW s.p1.x s.p0.x) 2, subW (subW s.p1.y s.p0.y) 2, bytes⟩

/-- The buffer transformation of `Screenshot::draw_draw_item`: dispatch on the
item's tag to the matching rasterizer call. -/
def render_item (buf : List ℕ) (w : ℕ) : DrawnItem → List ℕ
  | .line q0 q1 => draw_line buf q0.x q0.y q1.x q1.y w BORDER_COLOR
  | .rectBorder q0 q1 => draw_rect_borders buf q0.x q0.y q1.x q1.y w BORDER_COLOR
  | .rectFilled q0 q1 => draw_rect_filled buf q0.x q0.y q1.x q1.y w BORDER_COLOR

/-- `Screenshot::draw_draw_item`. -/
def Screenshot.draw_draw_item (s : Screenshot) (it : DrawnItem) : Screenshot :=
  { s with modified_screenshot := render_item s.modified_screenshot s.width it }

/-- `Screenshot::draw_boundaries`. -/
def Screenshot.draw_boundaries (s : Screenshot) : Screenshot :=
  { s with modified_screenshot :=
      draw_rect_borders s.modified_screenshot s.p0.x s.p0.y s.p1.x s.p1.y s.width BORDER_COLOR }

/-- The buffer transformation of `Screenshot::darken_not_selected_area`: for
every pixel outside the inclusive box `[p0, p1]`, set its alpha channel
to 100. -/
def darken_buf (buf : List ℕ) (w h : ℕ) (p0 p1 : Pt) : List ℕ :=
  (List.range h).foldl
    (fun acc y =>
      (List.range w).foldl
        (fun acc x =>
          if x < p0.x ∨ x > p1.x ∨ y < p0.y ∨ y > p1.y then
            acc.set (y * (w * 4) + x * 4 + 3) 100
          else acc)
        acc)
    buf

/-- `Screenshot::darken_not_selected_area`. -/
def Screenshot.darken_not_selected_area (s : Screenshot) : Screenshot :=
  { s with modified_screenshot :=
      darken_buf s.modified_screenshot s.width s.height s.p0 s.p1 }

/-- `Screenshot::draw`: the per-redraw compositing pipeline.  Returns the
updated session state together with the display buffer after the guarded
copy. -/
def Screenshot.draw (s : Screenshot) (pixels : List ℕ) : Screenshot × List ℕ :=
  let s1 : Screenshot := { s with modified_screenshot := s.original_screenshot }
  let s2 := s1.draw_boundaries
  let s3 := s2.darken_not_selected_area
  let s4 := s3.drawn_items.foldl (fun t it => t.draw_draw_item it) s3
  let s5 := match s4.drawing_item with
    | some it => s4.draw_draw_item it
    | none => s4
  (s5, if pixels.length = s5.modified_screenshot.length then s5.modified_screenshot else pixels)

/-- The buffer produced by one run of the compositing pipeline, as a function
of the session state: reset to the original frame, draw the region boundary,
darken the unselected area, draw the finalized items in order, then the
in-progress item. -/
def composited (s : Screenshot) : List ℕ :=
  let b1 := draw_rect_borders s.original_screenshot s.p0.x s.p0.y s.p1.x s.p1.y s.width
    BORDER_COLOR
  let b2 := darken_buf b1 s.width s.height s.p0 s.p1
  let b3 := s.drawn_items.foldl (fun b it => render_item b s.width it) b2
  match s.drawing_item with
  | some it => render_item b3 s.width it
  | none => b3

/-- `Screenshot::toggle_item_filling`. -/
def toggle_item_filling : DrawnItem → DrawnItem
  | .line q0 q1 => .line q0 q1
  | .rectBorder q0 q1 => .rectFilled q0 q1
  | .rectFilled q0 q1 => .rectBorder q0 q1

/-- `Screenshot::toggle_filling_latest`: pop the last finalized item, toggle
it, push it back. -/
def Screenshot.toggle_filling_latest (s : Screenshot) : Screenshot :=
  match s.drawn_items.getLast? with
  | none => s
  | some item =>
    { s with drawn_items := s.drawn_items.dropLast ++ [toggle_item_filling item] }

/-- `Screenshot::on_mouse_move`. -/
def Screenshot.on_mouse_move (s : Screenshot) (m : Pt) : Screenshot :=
  let t : Screenshot := { s with mouse_coordinates := some m }
  if t.is_resizing && t.top_border_resized then
    { t with p0 := ⟨t.p0.x, m.y⟩ }
  else if t.is_resizing && t.right_border_resized then
    { t with p1 := ⟨m.x, t.p1.y⟩ }
  else if t.is_resizing && t.bottom_border_resized then
    { t with p1 := ⟨t.p1.x, m.y⟩ }
  else if t.is_resizing && t.left_border_resized then
    { t with p0 := ⟨m.x, t.p0.y⟩ }
  else
    match t.draw_mode, t.drawing_item with
    | some .line, some (.line q0 _) => { t with drawing_item := some (.line q0 m) }
    | some .rectBorder, some (.rectBorder q0 _) =>
      { t with drawing_item := some (.rectBorder q0 m) }
    | some .rectFilled, some (.rectFilled q0 _) =>
      { t with drawing_item := some (.rectFilled q0 m) }
    | _, _ => t

/-- The edge hit-test of `Screenshot::on_mouse_pressed`: the four border bands
tested in priority order top, right, bottom, left; first match wins.  Note that
`ℕ` truncated subtraction coincides with the source's `saturating_sub`. -/
def edge_at (p0 p1 m : Pt) : Option Edge :=
  if m.x > p0.x ∧ m.x < p1.x ∧ m.y ≥ p0.y - 10 ∧ m.y ≤ p0.y + 10 then some .top
  else if m.y > p0.y ∧ m.y < p1.y ∧ m.x ≥ p1.x - 10 ∧ m.x ≤ p1.x + 10 then some .right
  else if m.x > p0.x ∧ m.x < p1.x ∧ m.y ≥ p1.y - 10 ∧ m.y ≤ p1.y + 10 then some .bottom
  else if m.y > p0.y ∧ m.y < p1.y ∧ m.x ≥ p0.x - 10 ∧ m.x ≤ p0.x + 10 then some .left
  else none

/-- `Screenshot::on_mouse_pressed`. -/
def Screenshot.on_mouse_pressed (s : Screenshot) : Screenshot :=
  match s.mouse_coordinates with
  | none => s
  | some m =>
    match edge_at s.p0 s.p1 m with
    | some .top => { s with is_resizing := true, top_border_resized := true }
    | some .right => { s with is_resizing := true, right_border_resized := true }
    | some .bottom => { s with is_resizing := true, bottom_border_resized := true }
    | some .left => { s with is_resizing := true, left_border_resized := true }
    | none =>
      match s.draw_mode with
      | some .line => { s with drawing_item := some (.line m m) }
      | some .rectBorder => { s with drawing_item := some (.rectBorder m m) }
      | some .rectFilled => { s with drawing_item := some (.rectFilled m m) }
      | none => s

/-- `Screenshot::on_mouse_released`. -/
def Screenshot.on_mouse_released (s : Screenshot) : Screenshot :=
  let s1 : Screenshot :=
    { s with is_resizing := false, top_border_resized := false,
             right_border_resized := false, bottom_border_resized := false,
             left_border_resized := false }
  let s2 : Screenshot :=
    match s1.draw_mode, s1.drawing_item, s1.mouse_coordinates with
    | some .line, some (.line q0 _), some m =>
      { s1 with drawn_items := s1.drawn_items ++ [.line q0 m], drawing_item := none }
    | some .rectBorder, some (.rectBorder q0 _), some m =>
      { s1 with drawn_items := s1.drawn_items ++ [.rectBorder q0 m], drawing_item := none }
    | some .rectFilled, some (.rectFilled q0 _), some m =>
      { s1 with drawn_items := s1.drawn_items ++ [.rectFilled q0 m], drawing_item := none }
    | _, _, _ => s1
  { s2 with draw_mode := none }

/-! ## Event layer

The abstract pointer/key events delivered by the window collaborator, and the
dispatch performed by the event loop in `main`. -/

/-- Mode and toggle keys handled by the event loop (`l`, `r`, `p`, `t`). -/
inductive ModeKey where
  | l
  | r
  | p
  | t
deriving DecidableEq, Repr

/-- An abstract input event (pointer press/release carry no position; the
position is the most recent `CursorMoved`). -/
inductive Ev where
  | press
  | release
  | move (m : Pt)
  | key (k : ModeKey)
deriving DecidableEq, Repr

/-- One step of the event loop's input dispatch. -/
def step (s : Screenshot) : Ev → Screenshot
  | .press => s.on_mouse_pressed
  | .release => s.on_mouse_released
  | .move m => s.on_mouse_move m
  | .key .l => { s with draw_mode := some .line }
  | .key .r => { s with draw_mode := some .rectBorder }
  | .key .p => { s with draw_mode := some .rectFilled }
  | .key .t => s.toggle_filling_latest

/-- Run a sequence of input events. -/
def runEvents (s : Screenshot) (evs : List Ev) : Screenshot :=
  evs.foldl step s

/-- At most one of the four resize-edge flags is set. -/
def atMostOneFlag (s : Screenshot) : Prop :=
  s.top_border_resized.toNat + s.right_border_resized.toNat +
    s.bottom_border_resized.toNat + s.left_border_resized.toNat ≤ 1

instance (s : Screenshot) : Decidable (atMostOneFlag s) := by
  unfold atMostOneFlag
  infer_instance

/-- None of the four resize-edge flags is set. -/
def noFlags (s : Screenshot) : Prop :=
  s.top_border_resized = false ∧ s.right_border_resized = false ∧
    s.bottom_border_resized = false ∧ s.left_border_resized = false

/-- The state between gestures: no resize flag, not resizing, nothing being
drawn. -/
def cleanState (s : Screenshot) : Prop :=
  noFlags s ∧ s.is_resizing = false ∧ s.drawing_item = none

/-- The draw mode matching an item's tag. -/
def tagOf : DrawnItem → DrawMode
  | .line _ _ => .line
  | .rectBorder _ _ => .rectBorder
  | .rectFilled _ _ => .rectFilled

/-- While an item is being drawn: no resize state is active, a mouse position
is known, and the draw mode still matches the item's tag. -/
def drawingInv (s : Screenshot) : Prop :=
  ∀ it, s.drawing_item = some it →
    noFlags s ∧ s.is_resizing = false ∧ s.mouse_coordinates ≠ none ∧
      s.draw_mode = some (tagOf it)

/-- The invariant maintained during a well-formed pointer gesture. -/
def pressedInv (s : Screenshot) : Prop :=
  atMostOneFlag s ∧ drawingInv s

/-- The session invariant, indexed by whether a pointer button is currently
held. -/
def sessionInv (pressed : Bool) (s : Screenshot) : Prop :=
  if pressed then pressedInv s else cleanState s

/-- Well-formed event sequences, given the current button state: a press only
happens while no button is held, and mode/toggle keys are not delivered in the
middle of a press-release gesture. -/
def wfFrom : Bool → List Ev → Bool
  | _, [] => true
  | pressed, e :: rest =>
    match e with
    | .press => !pressed && wfFrom true rest
    | .release => wfFrom false rest
    | .move _ => wfFrom pressed rest
    | .key _ => !pressed && wfFrom false rest

/-! ## Concrete session states used by witnesses and counterexamples -/

/-- A fresh 100×100 session. -/
def fresh100 : Screenshot := Screenshot.mk_initial 100 100 []

/-- A session holding a finalized line followed by a finalized rectangle
border. -/
def storeLineRect : Screenshot :=
  { fresh100 with drawn_items := [.line ⟨0, 0⟩ ⟨1, 1⟩, .rectBorder ⟨2, 2⟩ ⟨3, 3⟩] }

/-- A fresh session with the line draw mode primed. -/
def freshLineMode : Screenshot := { fresh100 with draw_mode := some .line }

/-- A session dragging the top edge. -/
def resizingTop : Screenshot :=
  { fresh100 with is_resizing := true, top_border_resized := true }

/-- Two presses with no intervening release: grab the bottom edge at
`(50, 95)`, drag it to the top of the frame, then press again at `(50, 0)`,
which now lies in the top band. -/
def seqTwoFlags : List Ev :=
  [.move ⟨50, 95⟩, .press, .move ⟨50, 0⟩, .press]

/-- An alternating press/release sequence with a mode key in mid-gesture: the
pending line item leaks past the release (the release's finalization pattern
no longer matches), and a later press grabs an edge while the item still
exists. -/
def seqFlagWhileDrawing : List Ev :=
  [.key .l, .move ⟨50, 50⟩, .press, .key .r, .release, .move ⟨50, 5⟩, .press]

/-- A well-formed gesture: prime the line mode, press, drag, release. -/
def seqWellFormed : List Ev :=
  [.key .l, .move ⟨50, 50⟩, .press, .move ⟨60, 60⟩, .release]

/-- A 30×30 session over a uniform captured frame, with the selection region
at `p0 = (10,10)`, `p1 = (20,20)` and no annotations. -/
def frame30 : Screenshot :=
  { Screenshot.mk_initial 30 30 (List.replicate 3600 7) with p0 := ⟨10, 10⟩, p1 := ⟨20, 20⟩ }

/-- A 1×5 session whose region has been dragged to `p1.x = 0`: the clip loop's
upper bound `p1.x − 1` wraps around. -/
def degenClip : Screenshot :=
  { Screenshot.mk_initial 1 5 (List.replicate 20 0) with p0 := ⟨0, 1⟩, p1 := ⟨0, 4⟩ }

/-- A 10×10 session whose region is 2 pixels wide (degenerate but with
`p1` off the frame origin). -/
def clipTwo : Screenshot :=
  { Screenshot.mk_initial 10 10 (List.replicate 400 0) with p0 := ⟨3, 3⟩, p1 := ⟨5, 9⟩ }

/-! ## Theorems -/

/-- `toggle_item_filling` is an involution. -/
theorem toggle_item_filling_involutive (it : DrawnItem) :
    toggle_item_filling (toggle_item_filling it) = it := by
  cases it <;> rfl

/-- Claim C4: fill-toggle on a store whose last item is `RectBorder(p0,p1)`
replaces it by `RectFilled(p0,p1)` with identical corners, and applying
fill-toggle twice restores the original store; if the last item is a `Line` the
store is unchanged; if the store is empty the operation has no effect; in every
case all elements other than the last are unchanged and the store's length is
unchanged. -/
theorem c4_fill_toggle (s : Screenshot) (l : List DrawnItem) (q0 q1 : Pt) :
    (s.drawn_items = l ++ [.rectBorder q0 q1] →
      s.toggle_filling_latest.drawn_items = l ++ [.rectFilled q0 q1]) ∧
    (s.drawn_items = l ++ [.line q0 q1] →
      s.toggle_filling_latest.drawn_items = s.drawn_items) ∧
    (s.drawn_items = [] → s.toggle_filling_latest = s) ∧
    s.toggle_filling_latest.toggle_filling_latest.drawn_items = s.drawn_items ∧
    s.toggle_filling_latest.drawn_items.dropLast = s.drawn_items.dropLast ∧
    s.toggle_filling_latest.drawn_items.length = s.drawn_items.length := by
  refine ⟨?_, ?_, ?_, ?_, ?_, ?_⟩
  · intro h
    simp [Screenshot.toggle_filling_latest, h, toggle_item_filling]
  · intro h
    simp [Screenshot.toggle_filling_latest, h, toggle_item_filling]
  · intro h
    simp [Screenshot.toggle_filling_latest, h]
  · rcases hl : s.drawn_items.getLast? with _ | it
    · simp [Screenshot.toggle_filling_latest, hl]
    · have hitems : s.drawn_items.dropLast ++ [it] = s.drawn_items :=
        List.dropLast_append_getLast? it hl
      simp only [Screenshot.toggle_filling_latest, hl]
      simp [toggle_item_filling_involutive, hitems]
  · rcases hl : s.drawn_items.getLast? with _ | it
    · simp [Screenshot.toggle_filling_latest, hl]
    · have hitems : s.drawn_items.dropLast ++ [it] = s.drawn_items :=
        List.dropLast_append_getLast? it hl
      simp only [Screenshot.toggle_filling_latest, hl]
      conv_rhs => rw [← hitems]
      simp
  · rcases hl : s.drawn_items.getLast? with _ | it
    · simp [Screenshot.toggle_filling_latest, hl]
    · have hitems : s.drawn_items.dropLast ++ [it] = s.drawn_items :=
        List.dropLast_append_getLast? it hl
      simp only [Screenshot.toggle_filling_latest, hl]
      conv_rhs => rw [← hitems]
      simp

/-- Witness for C4 at a concrete store. -/
theorem c4_fill_toggle_witness :
    storeLineRect.drawn_items = [.line ⟨0, 0⟩ ⟨1, 1⟩] ++ [.rectBorder ⟨2, 2⟩ ⟨3, 3⟩] ∧
    storeLineRect.toggle_filling_latest.drawn_items =
      [.line ⟨0, 0⟩ ⟨1, 1⟩] ++ [.rectFilled ⟨2, 2⟩ ⟨3, 3⟩] := by
  refine ⟨rfl, ?_⟩
  exact (c4_fill_toggle storeLineRect [.line ⟨0, 0⟩ ⟨1, 1⟩] ⟨2, 2⟩ ⟨3, 3⟩).1 rfl

/-- Claim C10: every pointer-release event sets `DrawMode` to `None`
unconditionally, whatever the rest of the state is. -/
theorem c10_release_clears_draw_mode (s : Screenshot) :
    s.on_mouse_released.draw_mode = none := by
  rfl

/-- Claim C2: with `DrawMode = Line` and no resize flag active, pressing at a
point `P` that lies in no region edge band, then moving to `Q` and to `R`, and
releasing, appends exactly one new item `Line(P, R)` to the store, leaves the
in-progress item empty and resets `DrawMode` to `None`. -/
theorem c2_line_gesture (s : Screenshot) (P Q R : Pt)
    (hmode : s.draw_mode = some .line)
    (hband : edge_at s.p0 s.p1 P = none)
    (htop : s.top_border_resized = false)
    (hright : s.right_border_resized = false)
    (hbottom : s.bottom_border_resized = false)
    (hleft : s.left_border_resized = false) :
    let s' := ((((s.on_mouse_move P).on_mouse_pressed).on_mouse_move Q).on_mouse_move
      R).on_mouse_released
    s'.drawn_items = s.drawn_items ++ [.line P R] ∧
    s'.drawing_item = none ∧
    s'.draw_mode = none := by
  have h1 : s.on_mouse_move P =
      { s with mouse_coordinates := some P } ∨
      ∃ q0, s.on_mouse_move P =
        { s with mouse_coordinates := some P, drawing_item := some (.line q0 P) } := by
    unfold Screenshot.on_mouse_move
    simp only [htop, hright, hbottom, hleft, Bool.and_false, Bool.false_eq_true, if_false]
    rcases hdi : s.drawing_item with _ | it
    · left
      simp [hmode, hdi]
    · cases it with
      | line a b => right; exact ⟨a, by simp [hmode, hdi]⟩
      | rectBorder a b => left; simp [hmode, hdi]
      | rectFilled a b => left; simp [hmode, hdi]
  rcases h1 with h1 | ⟨q0, h1⟩ <;>
  · rw [h1]
    unfold Screenshot.on_mouse_pressed
    simp only [hband, hmode]
    unfold Screenshot.on_mouse_move
    simp only [htop, hright, hbottom, hleft, Bool.and_false, Bool.false_eq_true, if_false,
      hmode]
    unfold Screenshot.on_mouse_released
    simp [hmode]

/-- Witness for C2: a concrete line gesture on a fresh 100×100 session. -/
theorem c2_line_gesture_witness :
    ((((freshLineMode.on_mouse_move ⟨50, 50⟩).on_mouse_pressed).on_mouse_move
        ⟨60, 40⟩).on_mouse_move ⟨70, 30⟩).on_mouse_released.drawn_items =
      freshLineMode.drawn_items ++ [.line ⟨50, 50⟩ ⟨70, 30⟩] ∧
    ((((freshLineMode.on_mouse_move ⟨50, 50⟩).on_mouse_pressed).on_mouse_move
        ⟨60, 40⟩).on_mouse_move ⟨70, 30⟩).on_mouse_released.drawing_item = none ∧
    ((((freshLineMode.on_mouse_move ⟨50, 50⟩).on_mouse_pressed).on_mouse_move
        ⟨60, 40⟩).on_mouse_move ⟨70, 30⟩).on_mouse_released.draw_mode = none := by
  exact c2_line_gesture freshLineMode ⟨50, 50⟩ ⟨60, 40⟩ ⟨70, 30⟩ rfl (by decide)
    rfl rfl rfl rfl

/-- A pointer move never changes the annotation store or the original frame
buffer. -/
theorem on_mouse_move_keeps_items_and_frame (s : Screenshot) (m : Pt) :
    (s.on_mouse_move m).drawn_items = s.drawn_items ∧
    (s.on_mouse_move m).original_screenshot = s.original_screenshot := by
  unfold Screenshot.on_mouse_move
  dsimp only
  repeat' split
  all_goals exact ⟨rfl, rfl⟩

/-- Claim C8: while exactly one resize edge is active, a pointer move changes
only the one scalar region coordinate bound to that edge (top: `p0.y`; right:
`p1.x`; bottom: `p1.y`; left: `p0.x`); the other three scalar coordinates, the
annotation store and the original frame buffer are unchanged. -/
theorem c8_resize_moves_one_coordinate (s : Screenshot) (m : Pt)
    (hres : s.is_resizing = true) :
    (s.top_border_resized = true → s.right_border_resized = false →
      s.bottom_border_resized = false → s.left_border_resized = false →
      (s.on_mouse_move m).p0 = ⟨s.p0.x, m.y⟩ ∧ (s.on_mouse_move m).p1 = s.p1) ∧
    (s.right_border_resized = true → s.top_border_resized = false →
      s.bottom_border_resized = false → s.left_border_resized = false →
      (s.on_mouse_move m).p1 = ⟨m.x, s.p1.y⟩ ∧ (s.on_mouse_move m).p0 = s.p0) ∧
    (s.bottom_border_resized = true → s.top_border_resized = false →
      s.right_border_resized = false → s.left_border_resized = false →
      (s.on_mouse_move m).p1 = ⟨s.p1.x, m.y⟩ ∧ (s.on_mouse_move m).p0 = s.p0) ∧
    (s.left_border_resized = true → s.top_border_resized = false →
      s.right_border_resized = false → s.bottom_border_resized = false →
      (s.on_mouse_move m).p0 = ⟨m.x, s.p0.y⟩ ∧ (s.on_mouse_move m).p1 = s.p1) ∧
    (s.on_mouse_move m).drawn_items = s.drawn_items ∧
    (s.on_mouse_move m).original_screenshot = s.original_screenshot := by
  refine ⟨?_, ?_, ?_, ?_, ?_, ?_⟩
  · intro h1 h2 h3 h4
    unfold Screenshot.on_mouse_move
    simp [hres, h1]
  · intro h1 h2 h3 h4
    unfold Screenshot.on_mouse_move
    simp [hres, h1, h2]
  · intro h1 h2 h3 h4
    unfold Screenshot.on_mouse_move
    simp [hres, h1, h2, h3]
  · intro h1 h2 h3 h4
    unfold Screenshot.on_mouse_move
    simp [hres, h1, h2, h3, h4]
  · exact on_mouse_move_keeps_items_and_frame s m |>.1
  · exact on_mouse_move_keeps_items_and_frame s m |>.2

/-- Folding `draw_draw_item` over a list of items only rewrites the working
buffer, via `render_item`. -/
theorem foldl_draw_draw_item (its : List DrawnItem) (t : Screenshot) :
    its.foldl (fun u it => u.draw_draw_item it) t =
      { t with modified_screenshot :=
          its.foldl (fun b it => render_item b t.width it) t.modified_screenshot } := by
  induction its generalizing t with
  | nil => rfl
  | cons it rest ih =>
    simp only [List.foldl_cons]
    rw [ih]
    rfl

/-- `Screenshot::draw` characterized: the resulting session state is the input
state with the working buffer replaced by `composited`, and the display buffer
receives the composite exactly when the lengths match. -/
theorem draw_eq (s : Screenshot) (p : List ℕ) :
    s.draw p = ({ s with modified_screenshot := composited s },
      if p.length = (composited s).length then composited s else p) := by
  unfold Screenshot.draw
  dsimp only
  rw [foldl_draw_draw_item]
  unfold composited
  dsimp only
  rcases s.drawing_item with _ | it
  · rfl
  · rfl

/-- `composited` does not read the stale working buffer. -/
theorem composited_update (s : Screenshot) (x : List ℕ) :
    composited { s with modified_screenshot := x } = composited s := by
  rfl

/-- Claim C1: the compositing pipeline is deterministic and idempotent — it is
insensitive to the stale working buffer, running it twice in succession leaves
the working buffer byte-identical, and the display buffers of two successive
runs from the unchanged state are byte-identical. -/
theorem c1_draw_deterministic_idempotent (s : Screenshot) (p q : List ℕ) :
    ({ s with modified_screenshot := q }.draw p) = s.draw p ∧
    (((s.draw p).1.draw q).1.modified_screenshot = (s.draw p).1.modified_screenshot) ∧
    (((s.draw p).1.draw ((s.draw p).2)).2 = (s.draw p).2) := by
  have h1 : (s.draw p).1 = { s with modified_screenshot := composited s } := by
    rw [draw_eq]
  have h2 : (s.draw p).2 = if p.length = (composited s).length then composited s else p := by
    rw [draw_eq]
  refine ⟨?_, ?_, ?_⟩
  · rw [draw_eq, draw_eq, composited_update]
  · rw [h1, draw_eq]
    rfl
  · rw [h1, h2, draw_eq]
    dsimp only
    by_cases h : p.length = (composited s).length
    · simp [h, composited_update]
    · simp [h, composited_update]

/-- Claim C3 counterexample: for the region `p0 = (0,0)`, `p1 = (100,5)`
(ordered corners), the point `(50, 5)` is the midpoint of the bottom border,
lies within tolerance of it and strictly inside its orthogonal span, yet the
hit-test reports the *top* edge (whose ±10 band also contains the point and is
tested first), not the bottom edge. -/
theorem c3_counterexample :
    (0 < 100 ∧ 0 < 5) ∧
    ((0 + 100) / 2 = 50 ∧ 0 < 50 ∧ 50 < 100) ∧
    edge_at ⟨0, 0⟩ ⟨100, 5⟩ ⟨50, 5⟩ = some Edge.top ∧
    edge_at ⟨0, 0⟩ ⟨100, 5⟩ ⟨50, 5⟩ ≠ some Edge.bottom := by
  decide

/-- Claim C3, amended: the hit-test activates at most one edge (a press from a
state with no active flag sets at most one flag), and for a region both of
whose sides exceed 10px, the midpoint of each border — strictly inside the
orthogonal span — activates exactly that border's edge.  (Without the 10px
side condition the ±10 band of the opposite, earlier-priority border can
capture the bottom or left midpoint.) -/
theorem c3_edge_hit_test (p0 p1 : Pt)
    (hx : p0.x + 10 < p1.x) (hy : p0.y + 10 < p1.y) :
    (∀ s : Screenshot, s.top_border_resized = false → s.right_border_resized = false →
      s.bottom_border_resized = false → s.left_border_resized = false →
      atMostOneFlag s.on_mouse_pressed) ∧
    edge_at p0 p1 ⟨(p0.x + p1.x) / 2, p0.y⟩ = some Edge.top ∧
    edge_at p0 p1 ⟨p1.x, (p0.y + p1.y) / 2⟩ = some Edge.right ∧
    edge_at p0 p1 ⟨(p0.x + p1.x) / 2, p1.y⟩ = some Edge.bottom ∧
    edge_at p0 p1 ⟨p0.x, (p0.y + p1.y) / 2⟩ = some Edge.left := by
  refine ⟨?_, ?_, ?_, ?_, ?_⟩
  · intro s h1 h2 h3 h4
    unfold Screenshot.on_mouse_pressed
    rcases hm : s.mouse_coordinates with _ | m
    · simp [atMostOneFlag, h1, h2, h3, h4]
    · rcases he : edge_at s.p0 s.p1 m with _ | e
      · rcases hdm : s.draw_mode with _ | md
        · simp [he, hdm, atMostOneFlag, h1, h2, h3, h4]
        · cases md <;> simp [he, hdm, atMostOneFlag, h1, h2, h3, h4]
      · cases e <;> simp [he, atMostOneFlag, h1, h2, h3, h4]
  · unfold edge_at
    dsimp only
    rw [if_pos (by omega)]
  · unfold edge_at
    dsimp only
    rw [if_neg (by omega), if_pos (by omega)]
  · unfold edge_at
    dsimp only
    rw [if_neg (by omega), if_neg (by omega), if_pos (by omega)]
  · unfold edge_at
    dsimp only
    rw [if_neg (by omega), if_neg (by omega), if_neg (by omega), if_pos (by omega)]

/-- Witness for C3 (amended) on a 100×100 region: each border midpoint
activates its own edge. -/
theorem c3_edge_hit_test_witness :
    edge_at ⟨0, 0⟩ ⟨100, 100⟩ ⟨(0 + 100) / 2, 0⟩ = some Edge.top ∧
    edge_at ⟨0, 0⟩ ⟨100, 100⟩ ⟨100, (0 + 100) / 2⟩ = some Edge.right ∧
    edge_at ⟨0, 0⟩ ⟨100, 100⟩ ⟨(0 + 100) / 2, 100⟩ = some Edge.bottom ∧
    edge_at ⟨0, 0⟩ ⟨100, 100⟩ ⟨0, (0 + 100) / 2⟩ = some Edge.left := by
  exact (c3_edge_hit_test ⟨0, 0⟩ ⟨100, 100⟩ (by decide) (by decide)).2

/-- Witness for C8: a concrete top-edge drag. -/
theorem c8_resize_moves_one_coordinate_witness :
    (resizingTop.on_mouse_move ⟨30, 40⟩).p0 = ⟨resizingTop.p0.x, 40⟩ ∧
    (resizingTop.on_mouse_move ⟨30, 40⟩).p1 = resizingTop.p1 := by
  exact (c8_resize_moves_one_coordinate resizingTop ⟨30, 40⟩ rfl).1 rfl rfl rfl rfl

/-- A clean state satisfies the pressed invariant. -/
theorem cleanState.toPressedInv {s : Screenshot} (h : cleanState s) : pressedInv s := by
  obtain ⟨⟨h1, h2, h3, h4⟩, _, hitem⟩ := h
  refine ⟨?_, ?_⟩
  · simp [atMostOneFlag, h1, h2, h3, h4]
  · intro it hit
    rw [hitem] at hit
    exact absurd hit (by simp)

/-- A pointer move leaves all flags, the resize state and the draw mode
unchanged, and records the new mouse position. -/
theorem on_mouse_move_fields (s : Screenshot) (m : Pt) :
    (s.on_mouse_move m).top_border_resized = s.top_border_resized ∧
    (s.on_mouse_move m).right_border_resized = s.right_border_resized ∧
    (s.on_mouse_move m).bottom_border_resized = s.bottom_border_resized ∧
    (s.on_mouse_move m).left_border_resized = s.left_border_resized ∧
    (s.on_mouse_move m).is_resizing = s.is_resizing ∧
    (s.on_mouse_move m).draw_mode = s.draw_mode ∧
    (s.on_mouse_move m).mouse_coordinates = some m := by
  unfold Screenshot.on_mouse_move
  dsimp only
  repeat' split
  all_goals exact ⟨rfl, rfl, rfl, rfl, rfl, rfl, rfl⟩

/-- A pointer move either leaves the in-progress item unchanged or updates its
free corner, keeping its tag and anchor. -/
theorem on_mouse_move_item (s : Screenshot) (m : Pt) :
    (s.on_mouse_move m).drawing_item = s.drawing_item ∨
    (∃ q0 q1, s.drawing_item = some (.line q0 q1) ∧
      (s.on_mouse_move m).drawing_item = some (.line q0 m)) ∨
    (∃ q0 q1, s.drawing_item = some (.rectBorder q0 q1) ∧
      (s.on_mouse_move m).drawing_item = some (.rectBorder q0 m)) ∨
    (∃ q0 q1, s.drawing_item = some (.rectFilled q0 q1) ∧
      (s.on_mouse_move m).drawing_item = some (.rectFilled q0 m)) := by
  unfold Screenshot.on_mouse_move
  dsimp only
  repeat' split
  all_goals first
    | exact Or.inl rfl
    | exact Or.inr (Or.inl ⟨_, _, by assumption, rfl⟩)
    | exact Or.inr (Or.inr (Or.inl ⟨_, _, by assumption, rfl⟩))
    | exact Or.inr (Or.inr (Or.inr ⟨_, _, by assumption, rfl⟩))

/-- A press from a clean state establishes the pressed invariant. -/
theorem press_inv {s : Screenshot} (h : cleanState s) : pressedInv s.on_mouse_pressed := by
  obtain ⟨⟨h1, h2, h3, h4⟩, hres, hitem⟩ := h
  unfold Screenshot.on_mouse_pressed
  rcases hm : s.mouse_coordinates with _ | m
  · exact cleanState.toPressedInv ⟨⟨h1, h2, h3, h4⟩, hres, hitem⟩
  · rcases he : edge_at s.p0 s.p1 m with _ | e
    · rcases hdm : s.draw_mode with _ | md
      · simp only [he]
        exact cleanState.toPressedInv ⟨⟨h1, h2, h3, h4⟩, hres, hitem⟩
      · cases md <;>
        · simp only [he]
          refine ⟨by simp [atMostOneFlag, h1, h2, h3, h4], ?_⟩
          intro it hit
          simp only [Option.some.injEq] at hit
          subst hit
          exact ⟨⟨h1, h2, h3, h4⟩, hres, by simp, rfl⟩
    · cases e <;>
      · simp only [he]
        refine ⟨by simp [atMostOneFlag, h1, h2, h3, h4], ?_⟩
        intro it hit
        simp only [hitem] at hit
        exact Option.noConfusion hit

/-- A release from a state satisfying the pressed invariant returns to a clean
state. -/
theorem release_inv {s : Screenshot} (h : pressedInv s) :
    cleanState s.on_mouse_released := by
  obtain ⟨_, hdi⟩ := h
  unfold Screenshot.on_mouse_released
  dsimp only
  rcases hit : s.drawing_item with _ | it
  · rcases hm : s.mouse_coordinates with _ | m <;>
      rcases hdm : s.draw_mode with _ | md <;>
      first
        | exact ⟨⟨rfl, rfl, rfl, rfl⟩, rfl, rfl⟩
        | cases md <;> exact ⟨⟨rfl, rfl, rfl, rfl⟩, rfl, rfl⟩
  · obtain ⟨_, _, hmouse, hmode⟩ := hdi it hit
    rcases hm : s.mouse_coordinates with _ | m
    · exact absurd hm hmouse
    · cases it <;> simp only [hmode, tagOf, hit, hm] <;>
        exact ⟨⟨rfl, rfl, rfl, rfl⟩, rfl, rfl⟩

/-- A pointer move preserves the pressed invariant. -/
theorem move_pressedInv {s : Screenshot} (m : Pt) (h : pressedInv s) :
    pressedInv (s.on_mouse_move m) := by
  obtain ⟨ham, hdi⟩ := h
  obtain ⟨f1, f2, f3, f4, f5, f6, f7⟩ := on_mouse_move_fields s m
  refine ⟨?_, ?_⟩
  · unfold atMostOneFlag at ham ⊢
    rw [f1, f2, f3, f4]
    exact ham
  · intro it2 hit2
    rcases on_mouse_move_item s m with hsame | hupd | hupd | hupd
    · rw [hsame] at hit2
      obtain ⟨⟨g1, g2, g3, g4⟩, g5, _, g7⟩ := hdi it2 hit2
      exact ⟨⟨f1.trans g1, f2.trans g2, f3.trans g3, f4.trans g4⟩, f5.trans g5,
        by simp [f7], f6.trans g7⟩
    all_goals
      obtain ⟨q0, q1, hs, hm2⟩ := hupd
      rw [hm2, Option.some.injEq] at hit2
      subst hit2
      obtain ⟨⟨g1, g2, g3, g4⟩, g5, _, g7⟩ := hdi _ hs
      exact ⟨⟨f1.trans g1, f2.trans g2, f3.trans g3, f4.trans g4⟩, f5.trans g5,
        by simp [f7], f6.trans g7⟩

/-- A pointer move preserves a clean state. -/
theorem move_clean {s : Screenshot} (m : Pt) (h : cleanState s) :
    cleanState (s.on_mouse_move m) := by
  obtain ⟨⟨h1, h2, h3, h4⟩, hres, hitem⟩ := h
  obtain ⟨f1, f2, f3, f4, f5, _, _⟩ := on_mouse_move_fields s m
  refine ⟨⟨f1.trans h1, f2.trans h2, f3.trans h3, f4.trans h4⟩, f5.trans hres, ?_⟩
  rcases on_mouse_move_item s m with hsame | hupd | hupd | hupd
  · exact hsame.trans hitem
  all_goals
    obtain ⟨q0, q1, hs, _⟩ := hupd
    rw [hitem] at hs
    exact Option.noConfusion hs

/-- A mode or toggle key preserves a clean state. -/
theorem key_clean {s : Screenshot} (k : ModeKey) (h : cleanState s) :
    cleanState (step s (.key k)) := by
  obtain ⟨⟨h1, h2, h3, h4⟩, hres, hitem⟩ := h
  cases k with
  | l => exact ⟨⟨h1, h2, h3, h4⟩, hres, hitem⟩
  | r => exact ⟨⟨h1, h2, h3, h4⟩, hres, hitem⟩
  | p => exact ⟨⟨h1, h2, h3, h4⟩, hres, hitem⟩
  | t =>
    unfold step Screenshot.toggle_filling_latest
    rcases hl : s.drawn_items.getLast? with _ | a
    · exact ⟨⟨h1, h2, h3, h4⟩, hres, hitem⟩
    · exact ⟨⟨h1, h2, h3, h4⟩, hres, hitem⟩

/-- The session invariant is preserved along any well-formed event sequence. -/
theorem runEvents_sessionInv (evs : List Ev) :
    ∀ (pressed : Bool) (s : Screenshot), sessionInv pressed s →
      wfFrom pressed evs = true → ∃ q, sessionInv q (runEvents s evs) := by
  induction evs with
  | nil => exact fun pressed s h _ => ⟨pressed, h⟩
  | cons e rest ih =>
    intro pressed s h hwf
    have hrun : runEvents s (e :: rest) = runEvents (step s e) rest := by
      simp [runEvents]
    rw [hrun]
    cases e with
    | press =>
      rw [wfFrom] at hwf
      simp only [Bool.and_eq_true, Bool.not_eq_eq_eq_not, Bool.not_true] at hwf
      obtain ⟨hp, hrest⟩ := hwf
      subst hp
      have hclean : cleanState s := by simpa [sessionInv] using h
      exact ih true _ (by simpa [sessionInv] using press_inv hclean) hrest
    | release =>
      rw [wfFrom] at hwf
      have hpi : pressedInv s := by
        cases pressed
        · exact cleanState.toPressedInv (by simpa [sessionInv] using h)
        · simpa [sessionInv] using h
      exact ih false _ (by simpa [sessionInv] using release_inv hpi) hwf
    | move m =>
      rw [wfFrom] at hwf
      cases pressed
      · have hclean : cleanState s := by simpa [sessionInv] using h
        exact ih false _ (by simpa [sessionInv] using move_clean m hclean) hwf
      · have hpi : pressedInv s := by simpa [sessionInv] using h
        exact ih true _ (by simpa [sessionInv] using move_pressedInv m hpi) hwf
    | key k =>
      rw [wfFrom] at hwf
      simp only [Bool.and_eq_true, Bool.not_eq_eq_eq_not, Bool.not_true] at hwf
      obtain ⟨hp, hrest⟩ := hwf
      subst hp
      have hclean : cleanState s := by simpa [sessionInv] using h
      exact ih false _ (by simpa [sessionInv] using key_clean k hclean) hrest

/-- Claim C9 counterexample: the invariant fails for unrestricted event
sequences.  `seqTwoFlags` (two presses with no intervening release) reaches a
state with both the top and the bottom flag set; `seqFlagWhileDrawing` (a mode
key delivered between press and release) reaches a state with the top flag set
while an in-progress drawing item still exists. -/
theorem c9_counterexample :
    ((runEvents fresh100 seqTwoFlags).top_border_resized = true ∧
      (runEvents fresh100 seqTwoFlags).bottom_border_resized = true ∧
      ¬ atMostOneFlag (runEvents fresh100 seqTwoFlags)) ∧
    ((runEvents fresh100 seqFlagWhileDrawing).top_border_resized = true ∧
      (runEvents fresh100 seqFlagWhileDrawing).drawing_item ≠ none) := by
  decide

/-- Claim C9, amended: in every state reachable from the initial state by a
well-formed sequence of pointer and key events — presses and releases
alternate, and no mode/toggle key is delivered between a press and its
release — at most one of the four resize-edge flags is set, and no flag is set
while an in-progress drawing item exists.  (Unrestricted sequences violate
both parts, see the counterexample.) -/
theorem c9_flags_exclusive (w h : ℕ) (cap : List ℕ) (evs : List Ev)
    (hwf : wfFrom false evs = true) :
    atMostOneFlag (runEvents (Screenshot.mk_initial w h cap) evs) ∧
    ∀ it, (runEvents (Screenshot.mk_initial w h cap) evs).drawing_item = some it →
      noFlags (runEvents (Screenshot.mk_initial w h cap) evs) := by
  have hinit : sessionInv false (Screenshot.mk_initial w h cap) := by
    exact ⟨⟨rfl, rfl, rfl, rfl⟩, rfl, rfl⟩
  obtain ⟨q, hq⟩ := runEvents_sessionInv evs false _ hinit hwf
  cases q
  · obtain ⟨⟨h1, h2, h3, h4⟩, _, hitem⟩ : cleanState _ := by simpa [sessionInv] using hq
    refine ⟨by simp [atMostOneFlag, h1, h2, h3, h4], ?_⟩
    intro it hit
    rw [hitem] at hit
    cases hit
  · obtain ⟨ham, hdi⟩ : pressedInv _ := by simpa [sessionInv] using hq
    exact ⟨ham, fun it hit => (hdi it hit).1⟩

/-- Witness for C9 (amended): a complete well-formed line gesture. -/
theorem c9_flags_exclusive_witness :
    atMostOneFlag (runEvents (Screenshot.mk_initial 100 100 []) seqWellFormed) := by
  exact (c9_flags_exclusive 100 100 [] seqWellFormed (by decide)).1

/-! ### Pixel-level lemmas -/

/-- A fold whose steps preserve the buffer length preserves the buffer
length. -/
theorem foldl_length_invariant {α : Type} (l : List α) (g : List ℕ → α → List ℕ)
    (b : List ℕ) (h : ∀ acc a, a ∈ l → (g acc a).length = acc.length) :
    (l.foldl g b).length = b.length := by
  induction l generalizing b with
  | nil => rfl
  | cons a rest ih =>
    rw [List.foldl_cons, ih _ fun acc a2 ha => h acc a2 (List.mem_cons_of_mem _ ha)]
    exact h b a (List.mem_cons_self a rest)

/-- A fold whose steps leave index `i` unchanged leaves index `i`
unchanged. -/
theorem foldl_getElem?_invariant {α : Type} (l : List α) (g : List ℕ → α → List ℕ)
    (b : List ℕ) (i : ℕ) (h : ∀ acc a, a ∈ l → (g acc a)[i]? = acc[i]?) :
    (l.foldl g b)[i]? = b[i]? := by
  induction l generalizing b with
  | nil => rfl
  | cons a rest ih =>
    rw [List.foldl_cons, ih _ fun acc a2 ha => h acc a2 (List.mem_cons_of_mem _ ha)]
    exact h b a (List.mem_cons_self a rest)

/-- `set_pixel` preserves the buffer length. -/
theorem set_pixel_length (b : List ℕ) (w : ℕ) (x y : ℤ) (c : Rgba) :
    (set_pixel b w x y c).length = b.length := by
  unfold set_pixel
  split <;> simp

/-- Row-major pixel indices are injective for in-row x-coordinates. -/
theorem pixel_index_inj {w x1 y1 x2 y2 : ℕ} (hx1 : x1 < w) (hx2 : x2 < w)
    (h : y1 * w + x1 = y2 * w + x2) : x1 = x2 ∧ y1 = y2 := by
  have hw : 0 < w := by omega
  have hx : x1 = x2 := by
    have e1 : (x1 + y1 * w) % w = x1 % w := Nat.add_mul_mod_self_right x1 y1 w
    have e2 : (x2 + y2 * w) % w = x2 % w := Nat.add_mul_mod_self_right x2 y2 w
    have : x1 + y1 * w = x2 + y2 * w := by omega
    rw [this, e2, Nat.mod_eq_of_lt hx1, Nat.mod_eq_of_lt hx2] at e1
    omega
  subst hx
  have hy : y1 * w = y2 * w := by omega
  exact ⟨rfl, Nat.eq_of_mul_eq_mul_right hw hy⟩

/-- `set_pixel` at a pixel different from the target leaves the target's
channels unchanged. -/
theorem set_pixel_getElem?_other {b : List ℕ} {w tx ty ch : ℕ} {x y : ℤ} {c : Rgba}
    (htx : tx < w) (hch : ch < 4) (hne : x ≠ (tx : ℤ) ∨ y ≠ (ty : ℤ)) :
    (set_pixel b w x y c)[4 * (ty * w + tx) + ch]? = b[4 * (ty * w + tx) + ch]? := by
  unfold set_pixel
  split
  · rename_i hcl
    obtain ⟨hx0, hxw, hy0, _⟩ := hcl
    have hpix : y.toNat * w + x.toNat ≠ ty * w + tx := by
      intro he
      have hxlt : x.toNat < w := by omega
      obtain ⟨hx, hy⟩ := pixel_index_inj hxlt htx he
      rcases hne with hne | hne
      · exact hne (by omega)
      · exact hne (by omega)
    have hne4 : ∀ k, k < 4 → 4 * (y.toNat * w + x.toNat) + k ≠ 4 * (ty * w + tx) + ch := by
      intro k hk he
      exact hpix (by omega)
    rw [List.getElem?_set_ne (hne4 3 (by omega)), List.getElem?_set_ne (hne4 2 (by omega)),
      List.getElem?_set_ne (hne4 1 (by omega))]
    have h0 : 4 * (y.toNat * w + x.toNat) ≠ 4 * (ty * w + tx) + ch := by
      have := hne4 0 (by omega)
      omega
    rw [List.getElem?_set_ne h0]
  · rfl

/-- `interp` between equal endpoints is constant. -/
theorem interp_same (a i n : ℕ) : interp a a i n = (a : ℤ) := by
  unfold interp
  split <;> simp

/-- `interp` stays between its endpoints. -/
theorem interp_bounds (a b i n : ℕ) (hi : i ≤ n) :
    min (a : ℤ) (b : ℤ) ≤ interp a b i n ∧ interp a b i n ≤ max (a : ℤ) (b : ℤ) := by
  unfold interp
  split
  · omega
  · rename_i hn
    have hn' : 0 < (n : ℤ) := by omega
    rcases le_or_lt 0 ((b : ℤ) - (a : ℤ)) with hd | hd
    · have hq0 : 0 ≤ ((b : ℤ) - a) * i / n :=
        Int.ediv_nonneg (mul_nonneg hd (by omega)) (by omega)
      have hqle : ((b : ℤ) - a) * i / n ≤ ((b : ℤ) - a) := by
        have h1 : ((b : ℤ) - a) * i ≤ ((b : ℤ) - a) * n := by
          exact mul_le_mul_of_nonneg_left (by omega) hd
        have h2 : ((b : ℤ) - a) * i / n ≤ ((b : ℤ) - a) * n / n :=
          Int.ediv_le_ediv hn' h1
        rwa [Int.mul_ediv_cancel _ (by omega)] at h2
      omega
    · have hq0 : ((b : ℤ) - a) * i / n ≤ 0 := by
        have h1 : ((b : ℤ) - a) * i ≤ 0 :=
          mul_nonpos_of_nonpos_of_nonneg (by omega) (by omega)
        have h2 : ((b : ℤ) - a) * i / n ≤ 0 / n := Int.ediv_le_ediv hn' h1
        simpa using h2
      have hqge : ((b : ℤ) - a) ≤ ((b : ℤ) - a) * i / n := by
        have h1 : ((b : ℤ) - a) * n ≤ ((b : ℤ) - a) * i :=
          mul_le_mul_of_nonpos_left (by omega) (by omega)
        have h2 : ((b : ℤ) - a) * n / n ≤ ((b : ℤ) - a) * i / n :=
          Int.ediv_le_ediv hn' h1
        rwa [Int.mul_ediv_cancel _ (by omega)] at h2
      omega

/-- Two channel offsets in 4-byte row-major layout coincide only for the same
pixel and channel. -/
theorem channel_index_inj {w x y tx ty k ch : ℕ} (hk : k < 4) (hch : ch < 4)
    (hx : x < w) (htx : tx < w)
    (h : 4 * (y * w + x) + k = 4 * (ty * w + tx) + ch) :
    x = tx ∧ y = ty ∧ k = ch := by
  have h2 : y * w + x = ty * w + tx ∧ k = ch := by
    generalize hA : y * w + x = A at h
    generalize hB : ty * w + tx = B at h
    omega
  obtain ⟨hpix, hkch⟩ := h2
  obtain ⟨hx2, hy2⟩ := pixel_index_inj hx htx hpix
  exact ⟨hx2, hy2, hkch⟩

/-- `draw_line` preserves the buffer length. -/
theorem draw_line_length (b : List ℕ) (x0 y0 x1 y1 w : ℕ) (c : Rgba) :
    (draw_line b x0 y0 x1 y1 w c).length = b.length := by
  unfold draw_line
  exact foldl_length_invariant _ _ _ fun acc i _ => set_pixel_length acc w _ _ c

/-- `draw_rect_borders` preserves the buffer length. -/
theorem draw_rect_borders_length (b : List ℕ) (x0 y0 x1 y1 w : ℕ) (c : Rgba) :
    (draw_rect_borders b x0 y0 x1 y1 w c).length = b.length := by
  unfold draw_rect_borders
  rw [draw_line_length, draw_line_length, draw_line_length, draw_line_length]

/-- `draw_line` leaves a target channel unchanged when no step of the line
lands on the target pixel. -/
theorem draw_line_getElem?_other {b : List ℕ} {w x0 y0 x1 y1 tx ty ch : ℕ} {c : Rgba}
    (htx : tx < w) (hch : ch < 4)
    (h : ∀ i, i ≤ line_steps x0 y0 x1 y1 →
      interp x0 x1 i (line_steps x0 y0 x1 y1) ≠ (tx : ℤ) ∨
        interp y0 y1 i (line_steps x0 y0 x1 y1) ≠ (ty : ℤ)) :
    (draw_line b x0 y0 x1 y1 w c)[4 * (ty * w + tx) + ch]? =
      b[4 * (ty * w + tx) + ch]? := by
  unfold draw_line
  apply foldl_getElem?_invariant
  intro acc i hi
  exact set_pixel_getElem?_other htx hch (h i (by have := List.mem_range.mp hi; omega))

/-- A horizontal line `(a, y) — (b, y)` leaves every channel of a pixel off
the segment unchanged. -/
theorem draw_hline_getElem?_other {buf : List ℕ} {w a b y tx ty ch : ℕ} {c : Rgba}
    (htx : tx < w) (hch : ch < 4)
    (h : ¬(ty = y ∧ min a b ≤ tx ∧ tx ≤ max a b)) :
    (draw_line buf a y b y w c)[4 * (ty * w + tx) + ch]? =
      buf[4 * (ty * w + tx) + ch]? := by
  apply draw_line_getElem?_other htx hch
  intro i hi
  by_cases hty : ty = y
  · subst hty
    left
    obtain ⟨hlo, hhi⟩ := interp_bounds a b i _ hi
    intro heq
    exact h ⟨rfl, by omega, by omega⟩
  · right
    rw [interp_same]
    intro heq
    exact hty (by omega)

/-- A vertical line `(x, a) — (x, b)` leaves every channel of a pixel off the
segment unchanged. -/
theorem draw_vline_getElem?_other {buf : List ℕ} {w x a b tx ty ch : ℕ} {c : Rgba}
    (htx : tx < w) (hch : ch < 4)
    (h : ¬(tx = x ∧ min a b ≤ ty ∧ ty ≤ max a b)) :
    (draw_line buf x a x b w c)[4 * (ty * w + tx) + ch]? =
      buf[4 * (ty * w + tx) + ch]? := by
  apply draw_line_getElem?_other htx hch
  intro i hi
  by_cases htxx : tx = x
  · subst htxx
    right
    obtain ⟨hlo, hhi⟩ := interp_bounds a b i _ hi
    intro heq
    exact h ⟨rfl, by omega, by omega⟩
  · left
    rw [interp_same]
    intro heq
    exact htxx (by omega)

/-- `draw_rect_borders` leaves every channel of a pixel lying on none of the
four border segments unchanged. -/
theorem draw_rect_borders_getElem?_other {buf : List ℕ} {w x0 y0 x1 y1 tx ty ch : ℕ}
    {c : Rgba} (htx : tx < w) (hch : ch < 4)
    (h1 : ¬(ty = y0 ∧ min x0 x1 ≤ tx ∧ tx ≤ max x0 x1))
    (h2 : ¬(tx = x1 ∧ min y0 y1 ≤ ty ∧ ty ≤ max y0 y1))
    (h3 : ¬(ty = y1 ∧ min x0 x1 ≤ tx ∧ tx ≤ max x0 x1))
    (h4 : ¬(tx = x0 ∧ min y0 y1 ≤ ty ∧ ty ≤ max y0 y1)) :
    (draw_rect_borders buf x0 y0 x1 y1 w c)[4 * (ty * w + tx) + ch]? =
      buf[4 * (ty * w + tx) + ch]? := by
  unfold draw_rect_borders
  rw [draw_vline_getElem?_other htx hch (fun hc => h4 ⟨hc.1, by omega, by omega⟩)]
  rw [draw_hline_getElem?_other htx hch (fun hc => h3 ⟨hc.1, by omega, by omega⟩)]
  rw [draw_vline_getElem?_other htx hch (fun hc => h2 ⟨hc.1, by omega, by omega⟩)]
  rw [draw_hline_getElem?_other htx hch (fun hc => h1 ⟨hc.1, by omega, by omega⟩)]

/-- `darken_buf` preserves the buffer length. -/
theorem darken_buf_length (b : List ℕ) (w h : ℕ) (p0 p1 : Pt) :
    (darken_buf b w h p0 p1).length = b.length := by
  unfold darken_buf
  apply foldl_length_invariant
  intro acc y _
  apply foldl_length_invariant
  intro acc2 x _
  split <;> simp

/-- `darken_buf` changes nothing at a non-alpha channel, nor at a pixel inside
the selection box. -/
theorem darken_buf_getElem?_other {b : List ℕ} {w h : ℕ} {p0 p1 : Pt} {tx ty ch : ℕ}
    (htx : tx < w) (hch : ch < 4)
    (hcase : ch ≠ 3 ∨ ¬(tx < p0.x ∨ tx > p1.x ∨ ty < p0.y ∨ ty > p1.y)) :
    (darken_buf b w h p0 p1)[4 * (ty * w + tx) + ch]? = b[4 * (ty * w + tx) + ch]? := by
  unfold darken_buf
  apply foldl_getElem?_invariant
  intro acc y _
  apply foldl_getElem?_invariant
  intro acc2 x hx
  split
  · rename_i hcond
    have hxw : x < w := List.mem_range.mp hx
    have hidx : y * (w * 4) + x * 4 + 3 = 4 * (y * w + x) + 3 := by ring
    rw [hidx]
    apply List.getElem?_set_ne
    intro heq
    obtain ⟨hx2, hy2, hk2⟩ := channel_index_inj (by omega) hch hxw htx heq
    subst hx2
    subst hy2
    rcases hcase with hcase | hcase
    · exact hcase hk2.symm
    · exact hcase hcond
  · rfl

/-- Splitting `List.range` at an interior point. -/
theorem range_split {n k : ℕ} (h : k < n) :
    List.range n = List.range k ++ k :: List.range' (k + 1) (n - k - 1) := by
  rw [List.range_eq_range', List.range_eq_range']
  have h1 : List.range' 0 k 1 ++ List.range' (0 + 1 * k) (n - k) 1 =
      List.range' 0 (n - k + k) 1 := List.range'_append 0 k (n - k) 1
  have h2 : n - k + k = n := by omega
  have h3 : 0 + 1 * k = k := by omega
  rw [h2, h3] at h1
  rw [← h1]
  congr 1
  rw [show n - k = (n - k - 1) + 1 from by omega, List.range'_succ]
  congr 2

/-- A fold over `prefix ++ a₀ :: suffix` whose `a₀`-step writes `v` at index
`i`, whose prefix steps preserve the length, and whose suffix steps do not
touch index `i`, produces `v` at index `i`. -/
theorem foldl_getElem?_write {α : Type} (l1 l2 : List α) (a0 : α)
    (g : List ℕ → α → List ℕ) (i v : ℕ) (b : List ℕ)
    (hwrite : ∀ acc : List ℕ, acc.length = b.length → (g acc a0)[i]? = some v)
    (hl1 : ∀ acc a, a ∈ l1 → (g acc a).length = acc.length)
    (hl2 : ∀ acc a, a ∈ l2 → (g acc a)[i]? = acc[i]?) :
    ((l1 ++ a0 :: l2).foldl g b)[i]? = some v := by
  rw [List.foldl_append, List.foldl_cons]
  rw [foldl_getElem?_invariant l2 _ _ _ hl2]
  exact hwrite _ (foldl_length_invariant l1 _ _ hl1)

/-- `darken_buf` sets the alpha channel of every in-frame pixel outside the
selection box to 100. -/
theorem darken_buf_getElem?_written {b : List ℕ} {w h : ℕ} {p0 p1 : Pt} {tx ty : ℕ}
    (htx : tx < w) (hty : ty < h)
    (hout : tx < p0.x ∨ tx > p1.x ∨ ty < p0.y ∨ ty > p1.y)
    (hlen : 4 * (ty * w + tx) + 3 < b.length) :
    (darken_buf b w h p0 p1)[4 * (ty * w + tx) + 3]? = some 100 := by
  unfold darken_buf
  rw [range_split hty]
  apply foldl_getElem?_write
  · -- the row `ty` writes the target alpha byte
    intro acc hacc
    rw [range_split htx]
    apply foldl_getElem?_write
    · intro acc2 hacc2
      have hcond : tx < p0.x ∨ tx > p1.x ∨ ty < p0.y ∨ ty > p1.y := hout
      rw [if_pos hcond]
      have hidx : ty * (w * 4) + tx * 4 + 3 = 4 * (ty * w + tx) + 3 := by ring
      rw [hidx]
      exact List.getElem?_set_eq_of_lt _ (by omega)
    · intro acc2 x _
      split <;> simp
    · intro acc2 x hx
      have hxmem := List.mem_range'_1.mp hx
      split
      · have hidx : ty * (w * 4) + x * 4 + 3 = 4 * (ty * w + x) + 3 := by ring
        rw [hidx]
        apply List.getElem?_set_ne
        intro heq
        obtain ⟨hx2, _, _⟩ := channel_index_inj (by omega) (by omega) (by omega) htx heq
        omega
      · rfl
  · -- earlier rows only preserve the length
    intro acc y _
    apply foldl_length_invariant
    intro acc2 x _
    split <;> simp
  · -- later rows do not touch row `ty`
    intro acc y hy
    have hymem := List.mem_range'_1.mp hy
    apply foldl_getElem?_invariant
    intro acc2 x hx
    have hxw : x < w := List.mem_range.mp hx
    split
    · have hidx : y * (w * 4) + x * 4 + 3 = 4 * (y * w + x) + 3 := by ring
      rw [hidx]
      apply List.getElem?_set_ne
      intro heq
      obtain ⟨_, hy2, _⟩ := channel_index_inj (by omega) (by omega) hxw htx heq
      omega
    · rfl

/-- A channel offset of an in-frame pixel is inside a `width·height·4`
buffer. -/
theorem pixel_offset_lt {w h x y : ℕ} (hx : x < w) (hy : y < h) (ch : ℕ) (hch : ch < 4) :
    4 * (y * w + x) + ch < w * h * 4 := by
  have h1 : y * w + x < h * w := by
    calc y * w + x < y * w + w := Nat.add_lt_add_left hx _
      _ = (y + 1) * w := (Nat.succ_mul y w).symm
      _ ≤ h * w := Nat.mul_le_mul_right w hy
  have h2 : h * w = w * h := Nat.mul_comm h w
  linarith

/-- Claim C5: after the compositing pipeline runs with no finalized and no
in-progress annotations, over an ordered region, every in-frame pixel outside
the inclusive box `[p0, p1]` has alpha 100 and its RGB channels equal to the
original frame's, and every pixel inside the box that is not on the region
border keeps its original alpha. -/
theorem c5_darken_outside (s : Screenshot) (p : List ℕ) (x y : ℕ)
    (hitems : s.drawn_items = [])
    (hdraw : s.drawing_item = none)
    (hlen : s.original_screenshot.length = s.width * s.height * 4)
    (hordx : s.p0.x ≤ s.p1.x) (hordy : s.p0.y ≤ s.p1.y)
    (hx : x < s.width) (hy : y < s.height) :
    ((x < s.p0.x ∨ x > s.p1.x ∨ y < s.p0.y ∨ y > s.p1.y) →
      (s.draw p).1.modified_screenshot[4 * (y * s.width + x) + 3]? = some 100 ∧
      ∀ ch, ch < 3 →
        (s.draw p).1.modified_screenshot[4 * (y * s.width + x) + ch]? =
          s.original_screenshot[4 * (y * s.width + x) + ch]?) ∧
    ((s.p0.x ≤ x ∧ x ≤ s.p1.x ∧ s.p0.y ≤ y ∧ y ≤ s.p1.y ∧
        x ≠ s.p0.x ∧ x ≠ s.p1.x ∧ y ≠ s.p0.y ∧ y ≠ s.p1.y) →
      (s.draw p).1.modified_screenshot[4 * (y * s.width + x) + 3]? =
        s.original_screenshot[4 * (y * s.width + x) + 3]?) := by
  have hm : (s.draw p).1.modified_screenshot = composited s := by
    rw [draw_eq]
  have hc : composited s =
      darken_buf (draw_rect_borders s.original_screenshot s.p0.x s.p0.y s.p1.x s.p1.y
        s.width BORDER_COLOR) s.width s.height s.p0 s.p1 := by
    unfold composited
    rw [hitems, hdraw]
    rfl
  have hblen : (draw_rect_borders s.original_screenshot s.p0.x s.p0.y s.p1.x s.p1.y
      s.width BORDER_COLOR).length = s.width * s.height * 4 := by
    rw [draw_rect_borders_length, hlen]
  constructor
  · intro hout
    constructor
    · rw [hm, hc]
      exact darken_buf_getElem?_written hx hy hout
        (by rw [hblen]; exact pixel_offset_lt hx hy 3 (by omega))
    · intro ch hch
      rw [hm, hc]
      rw [darken_buf_getElem?_other hx (by omega) (Or.inl (by omega))]
      exact draw_rect_borders_getElem?_other hx (by omega) (by omega) (by omega)
        (by omega) (by omega)
  · intro hin
    rw [hm, hc]
    rw [darken_buf_getElem?_other hx (by omega) (Or.inr (by omega))]
    exact draw_rect_borders_getElem?_other hx (by omega) (by omega) (by omega)
      (by omega) (by omega)

/-- Witness for C5: corner pixel `(0,0)` of `frame30` is dimmed to alpha 100,
interior pixel `(15,15)` keeps its original alpha. -/
theorem c5_darken_outside_witness :
    (frame30.draw []).1.modified_screenshot[4 * (0 * 30 + 0) + 3]? = some 100 ∧
    (frame30.draw []).1.modified_screenshot[4 * (15 * 30 + 15) + 3]? =
      frame30.original_screenshot[4 * (15 * 30 + 15) + 3]? := by
  have hlen30 : frame30.original_screenshot.length = frame30.width * frame30.height * 4 := by
    rw [show frame30.original_screenshot = List.replicate 3600 7 from rfl,
      List.length_replicate]
    rfl
  constructor
  · exact ((c5_darken_outside frame30 [] 0 0 rfl rfl hlen30 (by decide) (by decide)
      (by decide) (by decide)).1 (by decide)).1
  · exact (c5_darken_outside frame30 [] 15 15 rfl rfl hlen30 (by decide) (by decide)
      (by decide) (by decide)).2 (by decide)

/-! ### Exporter lemmas -/

/-- The numeral value of `usizeW`. -/
theorem usizeW_eq : usizeW = 18446744073709551616 := by norm_num [usizeW]

/-- Wrapping subtraction below the wrap point is plain subtraction. -/
theorem subW_eq {a b : ℕ} (hb : b ≤ a) (ha : a < usizeW) : subW a b = a - b := by
  unfold subW
  rw [usizeW_eq] at ha ⊢
  omega

/-- Wrapping addition below the wrap point is plain addition. -/
theorem addW_eq {a b : ℕ} (h : a + b < usizeW) : addW a b = a + b :=
  Nat.mod_eq_of_lt h

/-- Wrapping multiplication below the wrap point is plain multiplication. -/
theorem mulW_eq {a b : ℕ} (h : a * b < usizeW) : mulW a b = a * b :=
  Nat.mod_eq_of_lt h

/-- The wrapped pixel base offset computed by the clip loop is the plain
row-major offset. -/
theorem clip_index_base {w y x L : ℕ} (hb : 4 * (y * w + x) + 3 < L) (hL : L < usizeW)
    (hw4 : w * 4 < usizeW) :
    addW (mulW y (mulW w 4)) (mulW x 4) = 4 * (y * w + x) := by
  have h1 : 4 * (y * w) ≤ 4 * (y * w + x) := Nat.mul_le_mul_left 4 (Nat.le_add_right _ _)
  have h2 : 4 * x ≤ 4 * (y * w + x) := Nat.mul_le_mul_left 4 (Nat.le_add_left _ _)
  have h3 : 4 * (y * w + x) < usizeW :=
    lt_of_le_of_lt (Nat.le_add_right _ 3) (lt_trans hb hL)
  rw [mulW_eq hw4]
  have e2 : mulW y (w * 4) = y * (w * 4) := by
    apply mulW_eq
    have e : y * (w * 4) = 4 * (y * w) := by ring
    rw [e]
    exact lt_of_le_of_lt h1 h3
  rw [e2]
  have e3 : mulW x 4 = x * 4 := by
    apply mulW_eq
    have e : x * 4 = 4 * x := by ring
    rw [e]
    exact lt_of_le_of_lt h2 h3
  rw [e3]
  have e4 : addW (y * (w * 4)) (x * 4) = y * (w * 4) + x * 4 := by
    apply addW_eq
    have e : y * (w * 4) + x * 4 = 4 * (y * w + x) := by ring
    rw [e]
    exact h3
  rw [e4]
  ring

/-- The wrapped per-channel offset computed by the clip loop is the plain
channel offset. -/
theorem clip_index_chan {w y x L : ℕ} (hb : 4 * (y * w + x) + 3 < L) (hL : L < usizeW)
    (hw4 : w * 4 < usizeW) (k : ℕ) (hk : k ≤ 3) :
    addW (addW (mulW y (mulW w 4)) (mulW x 4)) k = 4 * (y * w + x) + k := by
  rw [clip_index_base hb hL hw4]
  apply addW_eq
  have h1 : 4 * (y * w + x) + k ≤ 4 * (y * w + x) + 3 := Nat.add_le_add_left hk _
  exact lt_of_le_of_lt h1 (lt_trans hb hL)

/-- The column loop of the exporter, when every read is in bounds, returns the
four channels of each pixel of the row segment in order. -/
theorem clip_cols_eq (buf : List ℕ) (w y : ℕ) (hL : buf.length < usizeW)
    (hw4 : w * 4 < usizeW) :
    ∀ (fuel x : ℕ),
      (∀ xi, x ≤ xi → xi < x + fuel → 4 * (y * w + xi) + 3 < buf.length) →
      clip_cols buf w y x fuel = some ((List.range' x fuel).flatMap fun xi =>
        [buf.getD (4 * (y * w + xi)) 0, buf.getD (4 * (y * w + xi) + 1) 0,
          buf.getD (4 * (y * w + xi) + 2) 0, buf.getD (4 * (y * w + xi) + 3) 0]) := by
  intro fuel
  induction fuel with
  | zero => intro x _; rfl
  | succ n ih =>
    intro x hb
    have hbx : 4 * (y * w + x) + 3 < buf.length := hb x (le_refl x) (by omega)
    have hb0 : 4 * (y * w + x) < buf.length :=
      lt_of_le_of_lt (Nat.le_add_right _ 3) hbx
    have hb1 : 4 * (y * w + x) + 1 < buf.length :=
      lt_of_le_of_lt (Nat.add_le_add_left (by omega) _) hbx
    have hb2 : 4 * (y * w + x) + 2 < buf.length :=
      lt_of_le_of_lt (Nat.add_le_add_left (by omega) _) hbx
    have hch : ∀ k : ℕ, k ≤ 3 → addW (4 * (y * w + x)) k = 4 * (y * w + x) + k := by
      intro k hk
      apply addW_eq
      exact lt_of_le_of_lt (Nat.add_le_add_left hk _) (lt_trans hbx hL)
    simp only [clip_cols, clip_index_base hbx hL hw4, hch 1 (by omega), hch 2 (by omega),
      hch 3 (by omega)]
    rw [List.getElem?_eq_getElem hb0, List.getElem?_eq_getElem hb1,
      List.getElem?_eq_getElem hb2, List.getElem?_eq_getElem hbx]
    rw [ih (x + 1) fun xi h1 h2 => hb xi (by omega) (by omega)]
    simp only [Option.bind_eq_bind, Option.some_bind]
    rw [List.range'_succ, List.flatMap_cons]
    rw [List.getD_eq_getElem buf 0 hb0, List.getD_eq_getElem buf 0 hb1,
      List.getD_eq_getElem buf 0 hb2, List.getD_eq_getElem buf 0 hbx]
    rfl

/-- The row loop of the exporter, when every read is in bounds, concatenates
the row segments in order. -/
theorem clip_rows_eq (buf : List ℕ) (w xs cnt : ℕ) (hL : buf.length < usizeW)
    (hw4 : w * 4 < usizeW) :
    ∀ (fuel y : ℕ),
      (∀ yi xi, y ≤ yi → yi < y + fuel → xs ≤ xi → xi < xs + cnt →
        4 * (yi * w + xi) + 3 < buf.length) →
      clip_rows buf w xs cnt y fuel = some ((List.range' y fuel).flatMap fun yi =>
        (List.range' xs cnt).flatMap fun xi =>
          [buf.getD (4 * (yi * w + xi)) 0, buf.getD (4 * (yi * w + xi) + 1) 0,
            buf.getD (4 * (yi * w + xi) + 2) 0, buf.getD (4 * (yi * w + xi) + 3) 0]) := by
  intro fuel
  induction fuel with
  | zero => intro y _; rfl
  | succ n ih =>
    intro y hb
    simp only [clip_rows]
    rw [clip_cols_eq buf w y hL hw4 cnt xs
      fun xi h1 h2 => hb y xi (le_refl y) (by omega) h1 h2]
    rw [ih (y + 1) fun yi xi h1 h2 h3 h4 => hb yi xi (by omega) (by omega) h3 h4]
    simp only [Option.bind_eq_bind, Option.some_bind]
    rw [List.range'_succ, List.flatMap_cons]

/-- An all-empty row loop returns an empty byte list. -/
theorem clip_rows_empty (buf : List ℕ) (w xs : ℕ) :
    ∀ (fuel y : ℕ), clip_rows buf w xs 0 y fuel = some [] := by
  intro fuel
  induction fuel with
  | zero => intro y; rfl
  | succ n ih =>
    intro y
    simp only [clip_rows, clip_cols, Option.bind_eq_bind, Option.some_bind, ih (y + 1)]
    rfl

/-- Claim C6: for a region strictly wider and taller than 2 pixels lying
within the frame, `get_clipped_image` returns an image of width
`p1.x − p0.x − 2` and height `p1.y − p0.y − 2` whose bytes are exactly the
RGBA values of the working buffer's pixels with coordinates strictly between
`p0` and `p1` (exclusive by one pixel on both sides), in row-major order. -/
theorem c6_clipped_image (s : Screenshot)
    (hx : s.p0.x + 2 < s.p1.x) (hy : s.p0.y + 2 < s.p1.y)
    (hxw : s.p1.x ≤ s.width) (hyh : s.p1.y ≤ s.height)
    (hlen : s.modified_screenshot.length = s.width * s.height * 4)
    (hW : s.width * s.height * 4 < usizeW) :
    s.get_clipped_image = some ⟨s.p1.x - s.p0.x - 2, s.p1.y - s.p0.y - 2,
      (List.range' (s.p0.y + 1) (s.p1.y - s.p0.y - 2)).flatMap fun yi =>
        (List.range' (s.p0.x + 1) (s.p1.x - s.p0.x - 2)).flatMap fun xi =>
          [s.modified_screenshot.getD (4 * (yi * s.width + xi)) 0,
            s.modified_screenshot.getD (4 * (yi * s.width + xi) + 1) 0,
            s.modified_screenshot.getD (4 * (yi * s.width + xi) + 2) 0,
            s.modified_screenshot.getD (4 * (yi * s.width + xi) + 3) 0]⟩ := by
  have hh1 : 1 ≤ s.height := by omega
  have hw4 : s.width * 4 < usizeW := by
    have h1 : s.width * 4 = s.width * 1 * 4 := by ring
    have h2 : s.width * 1 * 4 ≤ s.width * s.height * 4 :=
      Nat.mul_le_mul_right 4 (Nat.mul_le_mul_left s.width hh1)
    rw [h1]
    exact lt_of_le_of_lt h2 hW
  have hp1xW : s.p1.x < usizeW :=
    lt_of_le_of_lt (le_trans hxw (Nat.le_mul_of_pos_right _ (by omega))) hw4
  have hp1yW : s.p1.y < usizeW := by
    have h1 : s.height ≤ s.width * s.height := Nat.le_mul_of_pos_left _ (by omega)
    have h2 : s.width * s.height ≤ s.width * s.height * 4 :=
      Nat.le_mul_of_pos_right _ (by omega)
    exact lt_of_le_of_lt (le_trans hyh (le_trans h1 h2)) hW
  have hb : ∀ yi xi, s.p0.y + 1 ≤ yi → yi < s.p0.y + 1 + (s.p1.y - s.p0.y - 2) →
      s.p0.x + 1 ≤ xi → xi < s.p0.x + 1 + (s.p1.x - s.p0.x - 2) →
      4 * (yi * s.width + xi) + 3 < s.modified_screenshot.length := by
    intro yi xi h1 h2 h3 h4
    rw [hlen]
    exact pixel_offset_lt (by omega) (by omega) 3 (by omega)
  unfold Screenshot.get_clipped_image
  dsimp only
  rw [@subW_eq s.p1.x 1 (by omega) hp1xW, @subW_eq s.p1.y 1 (by omega) hp1yW,
    @subW_eq s.p1.x s.p0.x (by omega) hp1xW, @subW_eq s.p1.y s.p0.y (by omega) hp1yW,
    @subW_eq (s.p1.x - s.p0.x) 2 (by omega)
      (lt_of_le_of_lt (Nat.sub_le _ _) hp1xW),
    @subW_eq (s.p1.y - s.p0.y) 2 (by omega)
      (lt_of_le_of_lt (Nat.sub_le _ _) hp1yW),
    show s.p1.x - 1 - (s.p0.x + 1) = s.p1.x - s.p0.x - 2 from by omega,
    show s.p1.y - 1 - (s.p0.y + 1) = s.p1.y - s.p0.y - 2 from by omega]
  rw [clip_rows_eq s.modified_screenshot s.width (s.p0.x + 1) (s.p1.x - s.p0.x - 2)
    (by rw [hlen]; exact hW) hw4 (s.p1.y - s.p0.y - 2) (s.p0.y + 1) hb]

/-- Witness for C6: `frame30` clips to an 8×8 interior image. -/
theorem c6_clipped_image_witness :
    frame30.get_clipped_image = some ⟨8, 8,
      (List.range' 11 8).flatMap fun yi =>
        (List.range' 11 8).flatMap fun xi =>
          [frame30.modified_screenshot.getD (4 * (yi * 30 + xi)) 0,
            frame30.modified_screenshot.getD (4 * (yi * 30 + xi) + 1) 0,
            frame30.modified_screenshot.getD (4 * (yi * 30 + xi) + 2) 0,
            frame30.modified_screenshot.getD (4 * (yi * 30 + xi) + 3) 0]⟩ := by
  have hlen30 : frame30.modified_screenshot.length = frame30.width * frame30.height * 4 := by
    rw [show frame30.modified_screenshot = List.replicate 3600 7 from rfl,
      List.length_replicate]
    rfl
  exact c6_clipped_image frame30 (by decide) (by decide) (by decide) (by decide)
    hlen30 (by decide)

/-- Claim C7 counterexample: for the region `p0 = (0,1)`, `p1 = (0,4)` on a
1×5 frame we have `p1.x − p0.x = 0 ≤ 2`, yet the exporter does not produce a
degenerate/empty image — the wrapped column bound makes it read past the end
of the working buffer (an out-of-bounds access, a panic in the source,
modelled as `none`). -/
theorem c7_counterexample :
    ((degenClip.p1.x : ℤ) - (degenClip.p0.x : ℤ) ≤ 2) ∧
    degenClip.get_clipped_image = none := by
  constructor
  · decide
  · decide

/-- Claim C7, amended: whenever `p1.x − p0.x ≤ 2` or `p1.y − p0.y ≤ 2` *and*
`p1.x ≥ 1` and `p1.y ≥ 1` (so that neither loop bound wraps), the exporter
produces a degenerate result: it succeeds with an empty byte list (and a
zero or wrapped width/height), never a well-formed non-empty image and never
an out-of-bounds access.  With `p1.x = 0` or `p1.y = 0` the claim fails, see
the counterexample. -/
theorem c7_degenerate_region (s : Screenshot)
    (hx1 : 1 ≤ s.p1.x) (hy1 : 1 ≤ s.p1.y)
    (hxW : s.p1.x < usizeW) (hyW : s.p1.y < usizeW)
    (hdeg : (s.p1.x : ℤ) - (s.p0.x : ℤ) ≤ 2 ∨ (s.p1.y : ℤ) - (s.p0.y : ℤ) ≤ 2) :
    ∃ img, s.get_clipped_image = some img ∧ img.bytes = [] := by
  unfold Screenshot.get_clipped_image
  dsimp only
  rw [@subW_eq s.p1.x 1 hx1 hxW, @subW_eq s.p1.y 1 hy1 hyW]
  rcases hdeg with hdeg | hdeg
  · have hxf : s.p1.x - 1 - (s.p0.x + 1) = 0 := by omega
    rw [hxf, clip_rows_empty]
    exact ⟨_, rfl, rfl⟩
  · have hyf : s.p1.y - 1 - (s.p0.y + 1) = 0 := by omega
    rw [hyf]
    exact ⟨_, rfl, rfl⟩

/-- Witness for C7 (amended): a 2-pixel-wide region away from the origin
clips to an empty byte list. -/
theorem c7_degenerate_region_witness :
    ∃ img, clipTwo.get_clipped_image = some img ∧ img.bytes = [] := by
  exact c7_degenerate_region clipTwo (by decide) (by decide) (by decide) (by decide)
    (Or.inl (by decide))

end Birdy
